import Mathlib

/-! Verification of the JSON structural diff, RFC 6902 patch applier and
RFC 7396 merge patch applier of the json-tools repository. -/

/-- JSON value model: the tagged tree all three algorithms operate on.
Numbers are modelled as rationals. -/
inductive Json where
  | null : Json
  | bool (b : Bool) : Json
  | num (q : ℚ) : Json
  | str (s : String) : Json
  | arr (xs : List Json) : Json
  | obj (fs : List (String × Json)) : Json
/-- Size of a JSON value, used as the termination measure for the
recursions that descend through lookups. -/
theorem Json.sizeOf_lt_of_mem {x : Json} {xs : List Json} (h : x ∈ xs) :
    sizeOf x < sizeOf (Json.arr xs) := by
  have := List.sizeOf_lt_of_mem h
  simp only [Json.arr.sizeOf_spec]
  omega

theorem Json.sizeOf_lt_of_mem_obj {k : String} {v : Json}
    {fs : List (String × Json)} (h : (k, v) ∈ fs) :
    sizeOf v < sizeOf (Json.obj fs) := by
  have h1 := List.sizeOf_lt_of_mem h
  have h2 : sizeOf v < sizeOf (k, v) := by
    simp only [Prod.mk.sizeOf_spec]
    omega
  simp only [Json.obj.sizeOf_spec]
  omega

/-- Deduplicate a key list keeping the first occurrence of each key,
as a JS Set built from an iteration does. -/
def firstDedup : List String → List String
  | [] => []
  | k :: ks => k :: firstDedup (ks.filter (fun x => x ≠ k))
termination_by l => l.length
decreasing_by
  simp only [List.length_cons]
  exact Nat.lt_succ_of_le (List.length_filter_le _ _)

theorem mem_firstDedup {a : String} : ∀ {l : List String}, a ∈ firstDedup l ↔ a ∈ l := by
  intro l
  induction l using firstDedup.induct with
  | case1 => simp [firstDedup]
  | case2 k ks ih =>
    simp only [firstDedup, List.mem_cons, ih, List.mem_filter, decide_eq_true_eq]
    constructor
    · rintro (rfl | ⟨h, _⟩)
      · exact .inl rfl
      · exact .inr h
    · rintro (rfl | h)
      · exact .inl rfl
      · by_cases hak : a = k
        · exact .inl hak
        · exact .inr ⟨h, hak⟩

theorem nodup_firstDedup : ∀ (l : List String), (firstDedup l).Nodup := by
  intro l
  induction l using firstDedup.induct with
  | case1 => simp [firstDedup]
  | case2 k ks ih =>
    simp only [firstDedup, List.nodup_cons]
    refine ⟨fun hmem => ?_, ih⟩
    rw [mem_firstDedup] at hmem
    simp at hmem

/-- First-match lookup in an entry list, modelling JS property access on an
object (whose keys are unique). -/
def getKeyL : List (String × Json) → String → Option Json
  | [], _ => none
  | (k', v) :: rest, k => if k' = k then some v else getKeyL rest k

theorem getKeyL_mem : ∀ {l : List (String × Json)} {k : String} {v : Json},
    getKeyL l k = some v → (k, v) ∈ l := by
  intro l
  induction l with
  | nil => intro k v h; simp [getKeyL] at h
  | cons p rest ih =>
    intro k v h
    obtain ⟨k', v'⟩ := p
    simp only [getKeyL] at h
    split at h
    · next heq =>
      cases h
      subst heq
      exact .head _
    · next hne => exact .tail _ (ih h)

theorem getKeyL_isSome_of_mem_fst : ∀ {l : List (String × Json)} {k : String},
    k ∈ l.map Prod.fst → (getKeyL l k).isSome := by
  intro l
  induction l with
  | nil => intro k h; simp at h
  | cons p rest ih =>
    intro k h
    obtain ⟨k', v'⟩ := p
    by_cases hk : k' = k
    · simp [getKeyL, hk]
    · simp only [List.map_cons, List.mem_cons] at h
      rcases h with h | h
      · exact absurd h.symm hk
      · simpa [getKeyL, hk] using ih h

/-- Entries of an array viewed as a JS object: indices become string keys. -/
def enumEntries (i : Nat) : List Json → List (String × Json)
  | [] => []
  | x :: xs => (toString i, x) :: enumEntries (i + 1) xs

theorem mem_enumEntries : ∀ {i : Nat} {xs : List Json} {k : String} {v : Json},
    (k, v) ∈ enumEntries i xs → v ∈ xs := by
  intro i xs
  induction xs generalizing i with
  | nil => intro k v h; simp [enumEntries] at h
  | cons x rest ih =>
    intro k v h
    simp only [enumEntries, List.mem_cons, Prod.mk.injEq] at h
    rcases h with ⟨_, rfl⟩ | h
    · exact .head _
    · exact .tail _ (ih h)

/-- Own-property entries of a JSON value as seen by Object.keys and by
property access in the JS source: objects give their fields, arrays give
index-keyed elements, primitives give nothing. -/
def jsEntries : Json → List (String × Json)
  | .obj fs => fs
  | .arr xs => enumEntries 0 xs
  | _ => []

/-- Object.keys of a JSON value. -/
def jsKeys (a : Json) : List String := (jsEntries a).map Prod.fst

/-- JS property access a[k] restricted to own keys; none models undefined. -/
def getKey (a : Json) (k : String) : Option Json := getKeyL (jsEntries a) k

theorem sizeOf_getKey {a : Json} {k : String} {v : Json}
    (h : getKey a k = some v) : sizeOf v < sizeOf a := by
  cases a with
  | obj fs => exact Json.sizeOf_lt_of_mem_obj (getKeyL_mem h)
  | arr xs => exact Json.sizeOf_lt_of_mem (mem_enumEntries (getKeyL_mem h))
  | null => simp [getKey, jsEntries, getKeyL] at h
  | bool b => simp [getKey, jsEntries, getKeyL] at h
  | num q => simp [getKey, jsEntries, getKeyL] at h
  | str s => simp [getKey, jsEntries, getKeyL] at h

/-- JS property assignment on an entry list: overwrite in place when the key
exists, append at the end otherwise. -/
def setKey : List (String × Json) → String → Json → List (String × Json)
  | [], k, v => [(k, v)]
  | (k', v') :: rest, k, v =>
    if k' = k then (k, v) :: rest else (k', v') :: setKey rest k v

/-- JS delete on an entry list: remove the key. -/
def eraseKey (fs : List (String × Json)) (k : String) : List (String × Json) :=
  fs.filter (fun p => p.1 ≠ k)

/-- The JS typeof operator on JSON values. -/
def jsTypeof : Json → String
  | .null => "object"
  | .bool _ => "boolean"
  | .num _ => "number"
  | .str _ => "string"
  | .arr _ => "object"
  | .obj _ => "object"

/-- JS strict equality on JSON values coming from two independently parsed
documents: value equality on primitives, reference inequality on composites. -/
def jsEq : Json → Json → Bool
  | .null, .null => true
  | .bool a, .bool b => a == b
  | .num a, .num b => a == b
  | .str a, .str b => a == b
  | _, _ => false

/-- Array.isArray. -/
def isArr : Json → Bool
  | .arr _ => true
  | _ => false

/-- Constructor tag, to state claims that speak of the variant of a value. -/
def variantOf : Json → Nat
  | .null => 0
  | .bool _ => 1
  | .num _ => 2
  | .str _ => 3
  | .arr _ => 4
  | .obj _ => 5

mutual
/-- Structural equality of the data model: numbers by value, strings by
content, arrays by element order, objects by key/value sets irrespective
of key order. -/
def structEq : Json → Json → Bool
  | .null, .null => true
  | .bool a, .bool b => a == b
  | .num a, .num b => a == b
  | .str a, .str b => a == b
  | .arr xs, .arr ys => structEqList xs ys
  | .obj fs, .obj gs =>
    structEqKeys (.obj fs) (.obj gs)
      (firstDedup (jsKeys (.obj fs) ++ jsKeys (.obj gs)))
  | _, _ => false
termination_by a b => (sizeOf a + sizeOf b, 1, 0)

/-- Element-wise structural equality of two arrays. -/
def structEqList : List Json → List Json → Bool
  | [], [] => true
  | x :: xs, y :: ys => structEq x y && structEqList xs ys
  | _, _ => false
termination_by xs ys => (sizeOf xs + sizeOf ys, 1, 0)

/-- Both objects carry every key of the list and agree structurally on it. -/
def structEqKeys (a b : Json) : List String → Bool
  | [] => true
  | k :: ks =>
    (match h1 : getKey a k, h2 : getKey b k with
     | some v1, some v2 => structEq v1 v2
     | _, _ => false) && structEqKeys a b ks
termination_by ks => (sizeOf a + sizeOf b, 0, ks.length)
decreasing_by
  · have e1 := sizeOf_getKey h1
    have e2 := sizeOf_getKey h2
    decreasing_tactic
  · decreasing_tactic
end

theorem sizeOf_getKeyL {l : List (String × Json)} {k : String} {v : Json}
    (h : getKeyL l k = some v) : sizeOf v < sizeOf l := by
  have h1 := List.sizeOf_lt_of_mem (getKeyL_mem h)
  have h2 : sizeOf v < sizeOf (k, v) := by
    simp only [Prod.mk.sizeOf_spec]
    omega
  omega

/-- Is the value the JSON null literal, as tested by a strict comparison
with null in the source. -/
def isNull : Json → Bool
  | .null => true
  | _ => false

/-- The four difference kinds of the differ in src/src/pages/Formatter.tsx. -/
inductive DiffType where
  | added
  | removed
  | changed
  | unchanged
deriving DecidableEq, Repr

/-- A single difference entry; absent optional fields model absent JS
object properties. -/
structure DiffResult where
  path : String
  type : DiffType
  oldValue : Option Json := none
  newValue : Option Json := none

/-- Path shown for a change at the current location: the accumulated path,
or the word root at the top. -/
def rootPath (path : String) : String := if path = "" then "root" else path

/-- Path of an array element, bracket notation. -/
def itemPath (path : String) (i : Nat) : String :=
  (if path = "" then "" else path) ++ "[" ++ toString i ++ "]"

/-- Path of an object member, dot notation. -/
def keyPath (path : String) (k : String) : String :=
  if path = "" then k else path ++ "." ++ k

mutual
/-- The structural differ, translated from compareJson in
src/src/pages/Formatter.tsx. -/
def compareJson (a b : Json) (path : String) : List DiffResult :=
  if jsEq a b then []
  else if jsTypeof a != jsTypeof b then
    [{ path := rootPath path, type := .changed, oldValue := some a, newValue := some b }]
  else if isNull a || isNull b then
    if !(jsEq a b) then
      [{ path := rootPath path, type := .changed, oldValue := some a, newValue := some b }]
    else []
  else
    match a, b with
    | .arr xs, .arr ys => compareJsonElems xs ys path 0
    | a, b =>
      if jsTypeof a == "object" && jsTypeof b == "object" then
        compareJsonKeys a b path (firstDedup (jsKeys a ++ jsKeys b))
      else if !(jsEq a b) then
        [{ path := rootPath path, type := .changed, oldValue := some a, newValue := some b }]
      else []
termination_by (sizeOf a + sizeOf b, 1, 0)

/-- The positional array loop of compareJson, index i counting from the
start of the original arrays. -/
def compareJsonElems : List Json → List Json → String → Nat → List DiffResult
  | [], [], _, _ => []
  | [], y :: ys, path, i =>
    { path := itemPath path i, type := .added, newValue := some y } ::
      compareJsonElems [] ys path (i + 1)
  | x :: xs, [], path, i =>
    { path := itemPath path i, type := .removed, oldValue := some x } ::
      compareJsonElems xs [] path (i + 1)
  | x :: xs, y :: ys, path, i =>
    compareJson x y (itemPath path i) ++ compareJsonElems xs ys path (i + 1)
termination_by xs ys => (sizeOf xs + sizeOf ys, 1, 0)

/-- The key-union loop of compareJson over two object-typed values. -/
def compareJsonKeys (a b : Json) (path : String) : List String → List DiffResult
  | [] => []
  | k :: ks =>
    (match h1 : getKey a k, h2 : getKey b k with
     | none, v2 => [{ path := keyPath path k, type := .added, newValue := v2 }]
     | some v1, none => [{ path := keyPath path k, type := .removed, oldValue := some v1 }]
     | some v1, some v2 => compareJson v1 v2 (keyPath path k)) ++
    compareJsonKeys a b path ks
termination_by ks => (sizeOf a + sizeOf b, 0, ks.length)
decreasing_by
  · have e1 := sizeOf_getKey h1
    have e2 := sizeOf_getKey h2
    decreasing_tactic
  · decreasing_tactic
end

/-- The contribution of a single key of the key-union loop: an entry for a
key absent on one side, and the recursive diff when present on both. -/
def keyDiff (a b : Json) (p k : String) : List DiffResult :=
  match getKey a k, getKey b k with
  | none, v2 => [{ path := keyPath p k, type := .added, newValue := v2 }]
  | some v1, none => [{ path := keyPath p k, type := .removed, oldValue := some v1 }]
  | some v1, some v2 => compareJson v1 v2 (keyPath p k)

/-- The mirror of a difference entry, as the symmetry claim describes it:
Added and Removed trade places with the value moved between the fields,
Changed swaps its two values, and the path is kept. -/
def mirrorEntry (e : DiffResult) : DiffResult :=
  match e.type with
  | .added => { path := e.path, type := .removed, oldValue := e.newValue, newValue := e.oldValue }
  | .removed => { path := e.path, type := .added, oldValue := e.newValue, newValue := e.oldValue }
  | .changed => { path := e.path, type := .changed, oldValue := e.newValue, newValue := e.oldValue }
  | .unchanged => e

/-- The shape invariant of difference entries: Added carries only a new
value, Removed only an old value, Changed both, structurally unequal. -/
def shapeInvariant (e : DiffResult) : Prop :=
  match e.type with
  | .added => e.oldValue = none ∧ e.newValue.isSome = true
  | .removed => e.oldValue.isSome = true ∧ e.newValue = none
  | .changed => ∃ x y, e.oldValue = some x ∧ e.newValue = some y ∧ structEq x y = false
  | .unchanged => True

/-- Entries of an object target; any non-object target (null, primitive or
array) counts as the empty object, as in the target reset of the source. -/
def objEntries : Json → List (String × Json)
  | .obj tfs => tfs
  | _ => []

mutual
/-- RFC 7396 merge patch applier, translated from applyMergePatch in
src/src/pages/MergePatch.tsx. A non-object patch replaces the target; an
object patch merges into the target, a non-object target counting as empty. -/
def applyMergePatch (target patch : Json) : Json :=
  match patch with
  | .obj pfs =>
    .obj (mergeKeys (objEntries target) pfs (firstDedup (pfs.map Prod.fst)))
  | _ => patch
termination_by (sizeOf patch, 1, 0)

/-- The key loop of applyMergePatch: for each patch key, a null patch value
deletes the key, any other value is merged recursively into the current
value at that key, an absent value counting as non-object. -/
def mergeKeys (result pfs : List (String × Json)) : List String → List (String × Json)
  | [] => result
  | k :: ks =>
    match h1 : getKeyL pfs k with
    | some .null => mergeKeys (eraseKey result k) pfs ks
    | some v =>
      mergeKeys (setKey result k (applyMergePatch ((getKeyL result k).getD .null) v)) pfs ks
    | none => mergeKeys result pfs ks
termination_by ks => (sizeOf pfs, 0, ks.length)
decreasing_by
  all_goals try decreasing_tactic
  all_goals
    have e1 := sizeOf_getKeyL h1
    decreasing_tactic
end

/-- Modelled from the spec: a path token of section 3, an object key, an
array index, or the append marker. The RFC 6902 applier itself comes from
the external fast-json-patch package and is not part of this repository,
so it is modelled from sections 4.2 and 4.3 of the specification. -/
inductive PathToken where
  | key (s : String)
  | idx (n : Nat)
  | append
deriving DecidableEq, Repr

/-- Modelled from the spec: the error taxonomy of section 7. -/
inductive PErrKind where
  | pointerError
  | malformed
  | notFound
  | outOfBounds
  | typeMismatch
  | moveIntoSelf
  | testFailed
deriving DecidableEq, Repr

/-- Modelled from the spec: a patch error carries the offending operation
index and the error kind. -/
structure PatchError where
  opIndex : Nat
  kind : PErrKind
deriving DecidableEq, Repr

/-- Modelled from the spec: the six RFC 6902 operations of section 3. The
required-field invariants are enforced by the constructors. -/
inductive PatchOp where
  | add (path : List PathToken) (value : Json)
  | remove (path : List PathToken)
  | replace (path : List PathToken) (value : Json)
  | move (src dst : List PathToken)
  | copy (src dst : List PathToken)
  | test (path : List PathToken) (value : Json)

/-- Modelled from the spec: resolving a source pointer to the value it
addresses. A key token against an array or a primitive, or an index token
against a non-array, is a type mismatch; a missing location is not found;
the append marker is forbidden outside add, copy and move destinations. -/
def getAt : Json → List PathToken → Except PErrKind Json
  | doc, [] => .ok doc
  | doc, .key s :: rest =>
    match doc with
    | .obj fs =>
      match getKeyL fs s with
      | some v => getAt v rest
      | none => .error .notFound
    | _ => .error .typeMismatch
  | doc, .idx n :: rest =>
    match doc with
    | .arr xs =>
      match xs.get? n with
      | some v => getAt v rest
      | none => .error .notFound
    | _ => .error .typeMismatch
  | _, .append :: _ => .error .malformed

/-- Modelled from the spec: remove of section 4.3. The path must resolve to
an existing location; an object member is deleted, an array element is
removed shifting later elements left. Removing the document root is not
described by the spec and is treated as malformed. -/
def removeAt : Json → List PathToken → Except PErrKind Json
  | _, [] => .error .malformed
  | doc, [.key s] =>
    match doc with
    | .obj fs =>
      if (getKeyL fs s).isSome then .ok (.obj (eraseKey fs s)) else .error .notFound
    | _ => .error .typeMismatch
  | doc, [.idx n] =>
    match doc with
    | .arr xs =>
      if n < xs.length then .ok (.arr (xs.eraseIdx n)) else .error .notFound
    | _ => .error .typeMismatch
  | _, [.append] => .error .malformed
  | doc, .key s :: rest =>
    match doc with
    | .obj fs =>
      match getKeyL fs s with
      | some v => (removeAt v rest).map (fun w => .obj (setKey fs s w))
      | none => .error .notFound
    | _ => .error .typeMismatch
  | doc, .idx n :: rest =>
    match doc with
    | .arr xs =>
      match xs.get? n with
      | some v => (removeAt v rest).map (fun w => .arr (xs.set n w))
      | none => .error .notFound
    | _ => .error .typeMismatch
  | _, .append :: _ => .error .malformed

/-- Modelled from the spec: replace of section 4.3. The path must resolve
to an existing location and the value there is overwritten in place. -/
def replaceAt : Json → List PathToken → Json → Except PErrKind Json
  | _, [], v => .ok v
  | doc, .key s :: rest, v =>
    match doc with
    | .obj fs =>
      match getKeyL fs s with
      | some w => (replaceAt w rest v).map (fun w' => .obj (setKey fs s w'))
      | none => .error .notFound
    | _ => .error .typeMismatch
  | doc, .idx n :: rest, v =>
    match doc with
    | .arr xs =>
      match xs.get? n with
      | some w => (replaceAt w rest v).map (fun w' => .arr (xs.set n w'))
      | none => .error .notFound
    | _ => .error .typeMismatch
  | _, .append :: _, _ => .error .malformed

/-- Modelled from the spec: add of section 4.3. An object parent sets the
key; an array parent accepts an existing index (inserting, shifting right),
the append marker, or an index equal to the length (both appending), and
rejects a larger index as out of bounds. The append marker is only valid
as the final token. -/
def addAt : Json → List PathToken → Json → Except PErrKind Json
  | _, [], v => .ok v
  | doc, [.key s], v =>
    match doc with
    | .obj fs => .ok (.obj (setKey fs s v))
    | _ => .error .typeMismatch
  | doc, [.idx n], v =>
    match doc with
    | .arr xs =>
      if n < xs.length then .ok (.arr (xs.insertIdx n v))
      else if n = xs.length then .ok (.arr (xs ++ [v]))
      else .error .outOfBounds
    | _ => .error .typeMismatch
  | doc, [.append], v =>
    match doc with
    | .arr xs => .ok (.arr (xs ++ [v]))
    | _ => .error .typeMismatch
  | doc, .key s :: rest, v =>
    match doc with
    | .obj fs =>
      match getKeyL fs s with
      | some w => (addAt w rest v).map (fun w' => .obj (setKey fs s w'))
      | none => .error .notFound
    | _ => .error .typeMismatch
  | doc, .idx n :: rest, v =>
    match doc with
    | .arr xs =>
      match xs.get? n with
      | some w => (addAt w rest v).map (fun w' => .arr (xs.set n w'))
      | none => .error .notFound
    | _ => .error .typeMismatch
  | _, .append :: _, _ => .error .malformed

/-- Modelled from the spec: one operation of section 4.3 applied to a
working document. Move refuses a source that equals or prefixes the
destination, then removes at the source and adds the removed value at the
destination; copy adds the value read at the source; test compares the
value at the path with the expected value under structural equality. -/
def applyOp (doc : Json) : PatchOp → Except PErrKind Json
  | .add path v => addAt doc path v
  | .remove path => removeAt doc path
  | .replace path v => replaceAt doc path v
  | .move src dst =>
    if src.isPrefixOf dst then .error .moveIntoSelf
    else do
      let v ← getAt doc src
      let d ← removeAt doc src
      addAt d dst v
  | .copy src dst => do
    let v ← getAt doc src
    addAt doc dst v
  | .test path v => do
    let w ← getAt doc path
    if structEq w v then .ok doc else .error .testFailed

/-- Modelled from the spec: the operations are executed in order against
the working document, and the first failure aborts the whole run carrying
the index of the failing operation. -/
def applyOps : Json → List PatchOp → Nat → Except PatchError Json
  | doc, [], _ => .ok doc
  | doc, op :: rest, i =>
    match applyOp doc op with
    | .ok doc2 => applyOps doc2 rest (i + 1)
    | .error k => .error ⟨i, k⟩

/-- Modelled from the spec: the RFC 6902 applier of section 4.3, atomic
over the whole operation list. The input document is a value and is never
mutated; on error the caller keeps the original document. -/
def applyPatch (doc : Json) (ops : List PatchOp) : Except PatchError Json :=
  applyOps doc ops 0

/-- Is the value an object (and not an array or null). -/
def isObj : Json → Bool
  | .obj _ => true
  | _ => false

theorem map_fst_eraseKey {res : List (String × Json)} {k x : String} :
    x ∈ (eraseKey res k).map Prod.fst → x ∈ res.map Prod.fst := by
  intro h
  rcases List.mem_map.mp h with ⟨p, hp, rfl⟩
  exact List.mem_map.mpr ⟨p, (List.mem_filter.mp hp).1, rfl⟩

theorem not_mem_map_fst_eraseKey {res : List (String × Json)} {k : String} :
    k ∉ (eraseKey res k).map Prod.fst := by
  intro h
  rcases List.mem_map.mp h with ⟨p, hp, hfst⟩
  have := (List.mem_filter.mp hp).2
  simp only [decide_eq_true_eq] at this
  exact this hfst

theorem mem_map_fst_setKey : ∀ {res : List (String × Json)} {k x : String} {v : Json},
    x ∈ (setKey res k v).map Prod.fst → x = k ∨ x ∈ res.map Prod.fst := by
  intro res
  induction res with
  | nil =>
    intro k x v h
    simp only [setKey, List.map_cons, List.map_nil, List.mem_cons] at h
    rcases h with h | h
    · exact .inl h
    · simp at h
  | cons p rest ih =>
    intro k x v h
    obtain ⟨k', v'⟩ := p
    simp only [setKey] at h
    split at h
    · simp only [List.map_cons, List.mem_cons] at h
      rcases h with rfl | h
      · exact .inl rfl
      · exact .inr (by simp [h])
    · simp only [List.map_cons, List.mem_cons] at h
      rcases h with rfl | h
      · exact .inr (by simp)
      · rcases ih h with h | h
        · exact .inl h
        · exact .inr (by simp [h])

theorem mergeKeys_not_mem_of_not_mem : ∀ (ks : List String)
    (res pfs : List (String × Json)) (k : String), k ∉ ks →
    k ∉ res.map Prod.fst → k ∉ (mergeKeys res pfs ks).map Prod.fst := by
  intro ks
  induction ks with
  | nil =>
    intro res pfs k _ hres
    simpa [mergeKeys] using hres
  | cons k' ks ih =>
    intro res pfs k hks hres
    have hk : k ≠ k' := fun h => hks (h ▸ List.mem_cons_self _ _)
    have hks' : k ∉ ks := fun h => hks (List.mem_cons_of_mem _ h)
    rw [mergeKeys]
    split
    · exact ih _ _ _ hks' (fun h => hres (map_fst_eraseKey h))
    · refine ih _ _ _ hks' (fun h => ?_)
      rcases mem_map_fst_setKey h with h | h
      · exact hk h
      · exact hres h
    · exact ih _ _ _ hks' hres

theorem mergeKeys_removes_null_key : ∀ (ks : List String)
    (res pfs : List (String × Json)) (k : String), k ∈ ks → ks.Nodup →
    getKeyL pfs k = some .null → k ∉ (mergeKeys res pfs ks).map Prod.fst := by
  intro ks
  induction ks with
  | nil => intro res pfs k h; simp at h
  | cons k' ks ih =>
    intro res pfs k hmem hnd hnull
    rcases List.mem_cons.mp hmem with rfl | hmem
    · rw [mergeKeys, hnull]
      have hks : k ∉ ks := (List.nodup_cons.mp hnd).1
      exact mergeKeys_not_mem_of_not_mem ks _ pfs k hks not_mem_map_fst_eraseKey
    · have hnd' := (List.nodup_cons.mp hnd).2
      rw [mergeKeys]
      split
      · exact ih _ _ _ hmem hnd' hnull
      · exact ih _ _ _ hmem hnd' hnull
      · exact ih _ _ _ hmem hnd' hnull

/-- C8: for every target value and every patch that is not an object (a
primitive, an array, or null), applyMergePatch returns the patch itself, a
full replacement of the target regardless of the shape of the target. -/
theorem c8_merge_patch_full_replacement (target patch : Json)
    (h : isObj patch = false) : applyMergePatch target patch = patch := by
  cases patch
  case obj fs => simp [isObj] at h
  all_goals simp [applyMergePatch]

/-- Witness for C8 at a concrete input: an array patch replaces an object
target wholesale. -/
theorem c8_merge_patch_full_replacement_witness :
    isObj (Json.arr [Json.num 9]) = false ∧
      applyMergePatch (Json.obj [("a", Json.num 1)]) (Json.arr [Json.num 9]) =
        Json.arr [Json.num 9] :=
  ⟨rfl, c8_merge_patch_full_replacement _ _ rfl⟩

/-- C4 counterexample: the empty-object merge patch is not the identity on
a non-object target; on the number 5 it yields the empty object. -/
theorem c4_empty_patch_counterexample :
    applyMergePatch (Json.num 5) (Json.obj []) = Json.obj [] ∧
      applyMergePatch (Json.num 5) (Json.obj []) ≠ Json.num 5 := by
  have h : applyMergePatch (Json.num 5) (Json.obj []) = Json.obj [] := by
    simp [applyMergePatch, mergeKeys, firstDedup, objEntries]
  exact ⟨h, by rw [h]; intro hc; cases hc⟩

/-- C4 amended: applying the empty-object merge patch is the identity on
object targets, while any non-object target (primitive, array or null) is
turned into the empty object. -/
theorem c4_empty_patch_on_objects :
    (∀ fs : List (String × Json),
        applyMergePatch (Json.obj fs) (Json.obj []) = Json.obj fs) ∧
      (∀ x : Json, isObj x = false →
        applyMergePatch x (Json.obj []) = Json.obj []) := by
  constructor
  · intro fs
    simp [applyMergePatch, mergeKeys, firstDedup, objEntries]
  · intro x hx
    cases x
    case obj fs => simp [isObj] at hx
    all_goals simp [applyMergePatch, mergeKeys, firstDedup, objEntries]

/-- Witness for C4 amended at a concrete input: null is not an object and
merges with the empty patch to the empty object. -/
theorem c4_empty_patch_on_objects_witness :
    isObj Json.null = false ∧
      applyMergePatch Json.null (Json.obj []) = Json.obj [] :=
  ⟨rfl, c4_empty_patch_on_objects.2 Json.null rfl⟩

/-- C7: for every target and object patch, every key whose patch value is
null is absent from the result, a no-op when already absent; in particular
deleting the only key gives the empty object, and deleting an absent key
from the empty object gives the empty object. -/
theorem c7_null_patch_value_deletes_key :
    (∀ (target : Json) (pfs : List (String × Json)) (k : String),
        getKeyL pfs k = some Json.null →
          k ∉ jsKeys (applyMergePatch target (Json.obj pfs))) ∧
      applyMergePatch (Json.obj [("a", Json.num 1)]) (Json.obj [("a", Json.null)]) =
        Json.obj [] ∧
      applyMergePatch (Json.obj []) (Json.obj [("a", Json.null)]) = Json.obj [] := by
  refine ⟨?_, ?_, ?_⟩
  · intro target pfs k hk
    simp only [applyMergePatch, jsKeys, jsEntries]
    apply mergeKeys_removes_null_key
    · exact mem_firstDedup.mpr (List.mem_map.mpr ⟨(k, .null), getKeyL_mem hk, rfl⟩)
    · exact nodup_firstDedup _
    · exact hk
  · simp [applyMergePatch, mergeKeys, firstDedup, getKeyL, eraseKey, objEntries]
  · simp [applyMergePatch, mergeKeys, firstDedup, getKeyL, eraseKey, objEntries]

/-- Witness for C7 at a concrete input: key a with a null patch value is
gone from the merged result. -/
theorem c7_null_patch_value_deletes_key_witness :
    getKeyL [("a", Json.null)] "a" = some Json.null ∧
      "a" ∉ jsKeys (applyMergePatch (Json.obj [("a", Json.num 1)])
        (Json.obj [("a", Json.null)])) :=
  ⟨rfl, c7_null_patch_value_deletes_key.1 _ _ _ rfl⟩

theorem toString_nat_0 : toString (0 : Nat) = "0" := rfl

theorem toString_nat_2 : toString (2 : Nat) = "2" := rfl

/-- C3 counterexample: the differ renders paths in dot and bracket
notation, not in JSON-Pointer slash notation; the two diffs of the claim
yield the paths b and [2] rather than /b and /2. -/
theorem c3_slash_paths_counterexample :
    (compareJson (.obj [("a", .num 1), ("b", .num 2)])
        (.obj [("a", .num 1), ("b", .num 3)]) "").map DiffResult.path = ["b"] ∧
      ("b" : String) ≠ "/b" ∧
      (compareJson (.arr [.num 1, .num 2, .num 3])
        (.arr [.num 1, .num 2]) "").map DiffResult.path = ["[2]"] ∧
      ("[2]" : String) ≠ "/2" := by
  refine ⟨?_, by decide, ?_, by decide⟩
  · simp [compareJson, compareJsonKeys, jsEq, jsTypeof, isNull, jsKeys, jsEntries,
      getKey, getKeyL, firstDedup, keyPath, rootPath]
  · simp [compareJson, compareJsonElems, jsEq, jsTypeof, isNull, itemPath, rootPath,
      toString_nat_2]

/-- C3 amended: diff paths are rendered in dot and bracket notation, object
keys joined with a dot and array indices in brackets; the first example
diff is a single Changed entry at path b with old value 2 and new value 3,
and the second is a single Removed entry at path [2] with old value 3. -/
theorem c3_dot_bracket_paths :
    compareJson (.obj [("a", .num 1), ("b", .num 2)])
        (.obj [("a", .num 1), ("b", .num 3)]) "" =
      [{ path := "b", type := .changed, oldValue := some (.num 2),
         newValue := some (.num 3) }] ∧
      compareJson (.arr [.num 1, .num 2, .num 3]) (.arr [.num 1, .num 2]) "" =
        [{ path := "[2]", type := .removed, oldValue := some (.num 3),
           newValue := none }] := by
  constructor
  · simp [compareJson, compareJsonKeys, jsEq, jsTypeof, isNull, jsKeys, jsEntries,
      getKey, getKeyL, firstDedup, keyPath, rootPath]
  · simp [compareJson, compareJsonElems, jsEq, jsTypeof, isNull, itemPath, rootPath,
      toString_nat_2]

/-- C10: when exactly one input is an array and the other an object, the
differ falls into the key-union loop, array indices acting as string keys,
instead of reporting a mismatch at the current path; in particular the two
values of different variants [5] and (0: 5) have an empty diff in both
orders. -/
theorem c10_array_object_keywise :
    (∀ (xs : List Json) (fs : List (String × Json)) (p : String),
        compareJson (.arr xs) (.obj fs) p =
          compareJsonKeys (.arr xs) (.obj fs) p
            (firstDedup (jsKeys (.arr xs) ++ jsKeys (.obj fs)))) ∧
      (∀ (fs : List (String × Json)) (xs : List Json) (p : String),
        compareJson (.obj fs) (.arr xs) p =
          compareJsonKeys (.obj fs) (.arr xs) p
            (firstDedup (jsKeys (.obj fs) ++ jsKeys (.arr xs)))) ∧
      variantOf (.arr [.num 5]) ≠ variantOf (.obj [("0", .num 5)]) ∧
      compareJson (.arr [.num 5]) (.obj [("0", .num 5)]) "" = [] ∧
      compareJson (.obj [("0", .num 5)]) (.arr [.num 5]) "" = [] := by
  refine ⟨?_, ?_, by decide, ?_, ?_⟩
  · intro xs fs p
    simp [compareJson, jsEq, jsTypeof, isNull]
  · intro fs xs p
    simp [compareJson, jsEq, jsTypeof, isNull]
  · simp [compareJson, compareJsonKeys, jsEq, jsTypeof, isNull, jsKeys, jsEntries,
      enumEntries, getKey, getKeyL, firstDedup, keyPath, rootPath, toString_nat_0]
  · simp [compareJson, compareJsonKeys, jsEq, jsTypeof, isNull, jsKeys, jsEntries,
      enumEntries, getKey, getKeyL, firstDedup, keyPath, rootPath, toString_nat_0]

/-- C2 counterexample: an array and an object are values of different
variants, yet their diff can be empty rather than a single Changed entry
at the current path. -/
theorem c2_different_variants_counterexample :
    variantOf (.arr [.num 5]) ≠ variantOf (.obj [("0", .num 5)]) ∧
      compareJson (.arr [.num 5]) (.obj [("0", .num 5)]) "" = [] ∧
      compareJson (.arr [.num 5]) (.obj [("0", .num 5)]) "" ≠
        [{ path := rootPath "", type := .changed,
           oldValue := some (.arr [.num 5]),
           newValue := some (.obj [("0", .num 5)]) }] := by
  have h : compareJson (.arr [.num 5]) (.obj [("0", .num 5)]) "" = [] := by
    simp [compareJson, compareJsonKeys, jsEq, jsTypeof, isNull, jsKeys, jsEntries,
      enumEntries, getKey, getKeyL, firstDedup, keyPath, rootPath, toString_nat_0]
  refine ⟨by decide, h, ?_⟩
  rw [h]
  intro hc
  cases hc

/-- C2 amended: for values of different variants, the differ emits exactly
one Changed entry at the current path carrying the two values and does not
recurse, except when one value is an array and the other an object, in
which case it compares key-wise instead. -/
theorem c2_different_variants_changed (a b : Json) (p : String)
    (hv : variantOf a ≠ variantOf b)
    (h1 : ¬(isArr a = true ∧ isObj b = true))
    (h2 : ¬(isObj a = true ∧ isArr b = true)) :
    compareJson a b p =
      [{ path := rootPath p, type := .changed, oldValue := some a,
         newValue := some b }] := by
  cases a <;> cases b <;>
    first
      | exact (hv rfl).elim
      | (simp [isArr, isObj] at h1 <;> exact h1.elim)
      | (simp [isArr, isObj] at h2 <;> exact h2.elim)
      | simp [compareJson, jsEq, jsTypeof, isNull]

/-- Witness for C2 amended at a concrete input: a number versus a string
gives one Changed entry at the root. -/
theorem c2_different_variants_changed_witness :
    variantOf (.num 1) ≠ variantOf (.str "x") ∧
      compareJson (.num 1) (.str "x") "" =
        [{ path := rootPath "", type := .changed, oldValue := some (.num 1),
           newValue := some (.str "x") }] :=
  ⟨by decide, c2_different_variants_changed _ _ _ (by decide)
    (fun h => by simp [isArr] at h) (fun h => by simp [isObj] at h)⟩

theorem jsEq_symm : ∀ (a b : Json), jsEq a b = jsEq b a := by
  intro a b
  cases a <;> cases b <;> simp [jsEq] <;> exact ⟨Eq.symm, Eq.symm⟩

theorem structEq_typeof : ∀ {a b : Json}, structEq a b = true →
    jsTypeof a = jsTypeof b := by
  intro a b h
  cases a <;> cases b <;> first
    | rfl
    | simp [structEq] at h

theorem structEq_null_left : ∀ {b : Json}, structEq .null b = true → b = .null := by
  intro b h
  cases b <;> first
    | rfl
    | simp [structEq] at h

theorem structEq_null_right : ∀ {a : Json}, structEq a .null = true → a = .null := by
  intro a h
  cases a <;> first
    | rfl
    | simp [structEq] at h

theorem jsEq_of_structEq_of_not_object : ∀ {a b : Json}, structEq a b = true →
    ¬jsTypeof a = "object" → jsEq a b = true := by
  intro a b h hno
  cases a <;> cases b <;> first
    | exact absurd rfl hno
    | simpa [jsEq, structEq] using h
    | simp [structEq] at h

theorem structEqList_refl_aux : ∀ (xs : List Json),
    (∀ x ∈ xs, structEq x x = true) → structEqList xs xs = true := by
  intro xs
  induction xs with
  | nil => intro _; simp [structEqList]
  | cons x rest ih =>
    intro H
    rw [structEqList]
    simp only [Bool.and_eq_true]
    exact ⟨H x (List.mem_cons_self _ _), ih (fun y hy => H y (List.mem_cons_of_mem _ hy))⟩

theorem structEqKeys_refl_aux : ∀ (a : Json) (ks : List String),
    (∀ k ∈ ks, (getKey a k).isSome = true) →
    (∀ (k : String) (v : Json), getKey a k = some v → structEq v v = true) →
    structEqKeys a a ks = true := by
  intro a ks
  induction ks with
  | nil => intro _ _; rw [structEqKeys]
  | cons k rest ih =>
    intro Hs H
    rw [structEqKeys]
    simp only [Bool.and_eq_true]
    refine ⟨?_, ih (fun x hx => Hs x (List.mem_cons_of_mem _ hx)) H⟩
    obtain ⟨v, hv⟩ := Option.isSome_iff_exists.mp (Hs k (List.mem_cons_self _ _))
    rw [hv]
    exact H k v hv

theorem structEq_refl (a : Json) : structEq a a = true := by
  generalize hn : sizeOf a = n
  induction n using Nat.strong_induction_on generalizing a with
  | _ n ih =>
    subst hn
    cases a with
    | null => rw [structEq]
    | bool b => simp [structEq]
    | num q => simp [structEq]
    | str s => simp [structEq]
    | arr xs =>
      rw [structEq]
      exact structEqList_refl_aux xs
        (fun x hx => ih _ (Json.sizeOf_lt_of_mem hx) x rfl)
    | obj fs =>
      rw [structEq]
      refine structEqKeys_refl_aux _ _ ?_ ?_
      · intro k hk
        rw [mem_firstDedup, List.mem_append, or_self] at hk
        exact getKeyL_isSome_of_mem_fst hk
      · intro k v hv
        exact ih _ (sizeOf_getKey hv) v rfl

theorem eq_null_of_isNull : ∀ {a : Json}, isNull a = true → a = .null := by
  intro a h
  cases a <;> first
    | rfl
    | simp [isNull] at h

theorem structEqKeys_cons_inv : ∀ {a b : Json} {k : String} {ks : List String},
    structEqKeys a b (k :: ks) = true →
    (∃ v1 v2, getKey a k = some v1 ∧ getKey b k = some v2 ∧ structEq v1 v2 = true) ∧
      structEqKeys a b ks = true := by
  intro a b k ks h
  rw [structEqKeys, Bool.and_eq_true] at h
  obtain ⟨h1, h2⟩ := h
  refine ⟨?_, h2⟩
  split at h1
  · next v1 v2 heq1 heq2 => exact ⟨v1, v2, heq1, heq2, h1⟩
  · next => exact absurd h1 (by simp)

theorem compareJsonKeys_cons : ∀ (a b : Json) (p k : String) (ks : List String),
    compareJsonKeys a b p (k :: ks) = keyDiff a b p k ++ compareJsonKeys a b p ks := by
  intro a b p k ks
  rw [compareJsonKeys]
  congr 1
  split
  · next heq1 => simp [keyDiff, heq1]
  · next v1 heq1 heq2 => simp [keyDiff, heq1, heq2]
  · next v1 v2 heq1 heq2 => simp [keyDiff, heq1, heq2]

theorem mem_compareJsonKeys : ∀ {e : DiffResult} {a b : Json} {p : String}
    {ks : List String}, e ∈ compareJsonKeys a b p ks ↔ ∃ k ∈ ks, e ∈ keyDiff a b p k := by
  intro e a b p ks
  induction ks with
  | nil => rw [compareJsonKeys]; simp
  | cons k rest ih =>
    rw [compareJsonKeys_cons]
    simp only [List.mem_append, ih, List.mem_cons]
    constructor
    · rintro (h | ⟨x, hx, he⟩)
      · exact ⟨k, .inl rfl, h⟩
      · exact ⟨x, .inr hx, he⟩
    · rintro ⟨x, rfl | hx, he⟩
      · exact .inl he
      · exact .inr ⟨x, hx, he⟩

theorem compareJson_nil_of_structEq : ∀ (a b : Json) (p : String),
    structEq a b = true → compareJson a b p = [] := by
  refine compareJson.induct
    (fun a b p => structEq a b = true → compareJson a b p = [])
    (fun a b p ks => structEqKeys a b ks = true → compareJsonKeys a b p ks = [])
    (fun xs ys p i => structEqList xs ys = true → compareJsonElems xs ys p i = [])
    ?_ ?_ ?_ ?_ ?_ ?_ ?_ ?_ ?_ ?_ ?_ ?_ ?_ ?_
  · intro a b p hjs _
    rw [compareJson.eq_def, if_pos hjs]
  · intro a b p hjs hne h
    rw [bne_iff_ne] at hne
    exact absurd (structEq_typeof h) hne
  · intro a b p hjs hne hnull _ h
    rcases Bool.or_eq_true _ _ ▸ hnull with ha | hb
    · rcases eq_null_of_isNull ha with rfl
      rcases structEq_null_left h with rfl
      exact absurd rfl hjs
    · rcases eq_null_of_isNull hb with rfl
      rcases structEq_null_right h with rfl
      exact absurd rfl hjs
  · intro a b p hjs hne hnull h4 _
    rw [compareJson.eq_def, if_neg hjs, if_neg hne, if_pos hnull, if_neg h4]
  · intro p xs ys hjs hne hnull IH h
    rw [structEq] at h
    rw [compareJson.eq_def, if_neg hjs, if_neg hne, if_neg hnull]
    exact IH h
  · intro p a b harr hobj hjs hne hnull IH h
    rw [compareJson.eq_def, if_neg hjs, if_neg hne, if_neg hnull]
    cases a <;> cases b <;> first
      | (simp [jsTypeof] at hobj <;> exact hobj.elim)
      | (simp [isNull] at hnull <;> exact hnull.elim)
      | (exact (harr _ _ rfl rfl).elim)
      | (rw [structEq] at h
         exact (if_pos hobj).trans (IH h))
      | (simp [structEq] at h)
  · intro p a b harr hobj h7 hjs hne hnull h
    rw [bne_iff_ne] at hne
    have hteq : jsTypeof a = jsTypeof b := not_not.mp hne
    have hno : ¬jsTypeof a = "object" := by
      intro hhh
      exact hobj (by simp [hhh, ← hteq])
    exact absurd (jsEq_of_structEq_of_not_object h hno) hjs
  · intro p a b harr hobj h8 hjs hne hnull _
    rw [compareJson.eq_def, if_neg hjs, if_neg hne, if_neg hnull]
    cases a <;> cases b <;> first
      | (exact (harr _ _ rfl rfl).elim)
      | (exact (if_neg hobj).trans (if_neg h8))
  · intro a b p _
    rw [compareJsonKeys]
  · intro a b p k ks IH1 IH2 h
    obtain ⟨⟨v1, v2, hga, hgb, h1⟩, h2⟩ := structEqKeys_cons_inv h
    rw [compareJsonKeys_cons]
    simp only [keyDiff, hga, hgb]
    rw [IH1 v1 v2 hga hgb h1, IH2 h2]
    rfl
  · intro p i _
    rw [compareJsonElems]
  · intro y ys p i _ h
    simp [structEqList] at h
  · intro x xs p i _ h
    simp [structEqList] at h
  · intro x xs y ys p i IH1 IH2 h
    rw [structEqList, Bool.and_eq_true] at h
    obtain ⟨h1, h2⟩ := h
    rw [compareJsonElems, IH1 h1, IH2 h2]
    rfl

/-- C5: for every pair of structurally equal values, and in particular for
diff(a, a), the diff is empty: an equal subtree contributes no entries. -/
theorem c5_structurally_equal_diff_empty :
    (∀ (a b : Json) (p : String), structEq a b = true → compareJson a b p = []) ∧
      (∀ (a : Json) (p : String), compareJson a a p = []) :=
  ⟨compareJson_nil_of_structEq,
   fun a p => compareJson_nil_of_structEq a a p (structEq_refl a)⟩

/-- Witness for C5 at a concrete input: two objects with the same keys and
values in a different order are structurally equal and diff to nothing. -/
theorem c5_structurally_equal_diff_empty_witness :
    structEq (Json.obj [("a", .num 1), ("b", .num 2)])
        (Json.obj [("b", .num 2), ("a", .num 1)]) = true ∧
      compareJson (Json.obj [("a", .num 1), ("b", .num 2)])
        (Json.obj [("b", .num 2), ("a", .num 1)]) "" = [] := by
  have hs : structEq (Json.obj [("a", .num 1), ("b", .num 2)])
      (Json.obj [("b", .num 2), ("a", .num 1)]) = true := by
    simp [structEq, structEqKeys, firstDedup, jsKeys, jsEntries, getKey, getKeyL]
  exact ⟨hs, c5_structurally_equal_diff_empty.1 _ _ "" hs⟩

theorem structEq_eq_false_of_typeof_ne : ∀ {a b : Json},
    jsTypeof a ≠ jsTypeof b → structEq a b = false := by
  intro a b h
  cases hse : structEq a b
  · rfl
  · exact absurd (structEq_typeof hse) h

theorem getKey_isSome_of_mem_jsKeys : ∀ {a : Json} {k : String},
    k ∈ jsKeys a → (getKey a k).isSome = true := by
  intro a k h
  exact getKeyL_isSome_of_mem_fst h

/-- C9: every entry emitted by the differ satisfies the shape invariant:
Added carries only a new value, Removed only an old value, Changed carries
both and they are structurally unequal. -/
theorem c9_diff_entry_shape : ∀ (a b : Json) (p : String),
    ∀ e ∈ compareJson a b p, shapeInvariant e := by
  refine compareJson.induct
    (fun a b p => ∀ e ∈ compareJson a b p, shapeInvariant e)
    (fun a b p ks =>
      (∀ k ∈ ks, (getKey a k).isSome = true ∨ (getKey b k).isSome = true) →
        ∀ e ∈ compareJsonKeys a b p ks, shapeInvariant e)
    (fun xs ys p i => ∀ e ∈ compareJsonElems xs ys p i, shapeInvariant e)
    ?_ ?_ ?_ ?_ ?_ ?_ ?_ ?_ ?_ ?_ ?_ ?_ ?_ ?_
  · intro a b p hjs e he
    rw [compareJson.eq_def, if_pos hjs] at he
    simp at he
  · intro a b p hjs hne e he
    rw [bne_iff_ne] at hne
    rw [compareJson.eq_def, if_neg hjs] at he
    rw [if_pos (by rwa [bne_iff_ne])] at he
    rcases List.mem_singleton.mp he with rfl
    exact ⟨a, b, rfl, rfl, structEq_eq_false_of_typeof_ne hne⟩
  · intro a b p hjs hne hnull h3 e he
    have hse : structEq a b = false := by
      cases hse' : structEq a b
      · rfl
      · rcases Bool.or_eq_true _ _ ▸ hnull with hA | hB
        · rcases eq_null_of_isNull hA with rfl
          rcases structEq_null_left hse' with rfl
          exact absurd rfl hjs
        · rcases eq_null_of_isNull hB with rfl
          rcases structEq_null_right hse' with rfl
          exact absurd rfl hjs
    rw [compareJson.eq_def, if_neg hjs, if_neg hne, if_pos hnull, if_pos h3] at he
    rcases List.mem_singleton.mp he with rfl
    exact ⟨a, b, rfl, rfl, hse⟩
  · intro a b p hjs hne hnull h4 e he
    rw [compareJson.eq_def, if_neg hjs, if_neg hne, if_pos hnull, if_neg h4] at he
    simp at he
  · intro p xs ys hjs hne hnull IH
    rw [compareJson.eq_def, if_neg hjs, if_neg hne, if_neg hnull]
    exact IH
  · intro p a b harr hobj hjs hne hnull IH
    have hpre : ∀ k ∈ firstDedup (jsKeys a ++ jsKeys b),
        (getKey a k).isSome = true ∨ (getKey b k).isSome = true := by
      intro k hk
      rw [mem_firstDedup, List.mem_append] at hk
      rcases hk with hk | hk
      · exact .inl (getKey_isSome_of_mem_jsKeys hk)
      · exact .inr (getKey_isSome_of_mem_jsKeys hk)
    rw [compareJson.eq_def, if_neg hjs, if_neg hne, if_neg hnull]
    cases a <;> cases b <;> first
      | (simp [jsTypeof] at hobj <;> exact hobj.elim)
      | (simp [isNull] at hnull <;> exact hnull.elim)
      | (exact (harr _ _ rfl rfl).elim)
      | (exact IH hpre)
  · intro p a b harr hobj h7 hjs hne hnull
    have hteq : jsTypeof a = jsTypeof b := by
      have hcopy := hne
      rw [bne_iff_ne, not_not] at hcopy
      exact hcopy
    have hno : ¬jsTypeof a = "object" := by
      intro hhh
      exact hobj (by simp [hhh, ← hteq])
    have hse : structEq a b = false := by
      cases hse' : structEq a b
      · rfl
      · exact absurd (jsEq_of_structEq_of_not_object hse' hno) hjs
    have heq : compareJson a b p =
        [{ path := rootPath p, type := .changed, oldValue := some a,
           newValue := some b }] := by
      rw [compareJson.eq_def, if_neg hjs, if_neg hne, if_neg hnull]
      cases a <;> cases b <;> first
        | (exact (harr _ _ rfl rfl).elim)
        | (exact absurd rfl hobj)
        | (exact (if_neg hobj).trans (if_pos h7))
    intro e he
    rw [heq] at he
    rcases List.mem_singleton.mp he with rfl
    exact ⟨a, b, rfl, rfl, hse⟩
  · intro p a b harr hobj h8 hjs hne hnull
    have hj : jsEq a b = true := by
      cases hj : jsEq a b
      · exact absurd (by rw [hj]; rfl) h8
      · rfl
    exact absurd hj hjs
  · intro a b p _ e he
    rw [compareJsonKeys] at he
    simp at he
  · intro a b p k ks IH1 IH2 hpre e he
    rw [compareJsonKeys_cons] at he
    rcases List.mem_append.mp he with he | he
    · rw [keyDiff] at he
      cases hga : getKey a k <;> cases hgb : getKey b k <;>
        simp only [hga, hgb] at he
      · rcases hpre k (List.mem_cons_self _ _) with h | h
        · rw [hga] at h
          simp at h
        · rw [hgb] at h
          simp at h
      · rcases List.mem_singleton.mp he with rfl
        exact ⟨rfl, rfl⟩
      · rcases List.mem_singleton.mp he with rfl
        exact ⟨rfl, rfl⟩
      · exact IH1 _ _ hga hgb e he
    · exact IH2 (fun x hx => hpre x (List.mem_cons_of_mem _ hx)) e he
  · intro p i e he
    rw [compareJsonElems] at he
    simp at he
  · intro y ys p i IH e he
    rw [compareJsonElems] at he
    rcases List.mem_cons.mp he with rfl | he
    · exact ⟨rfl, rfl⟩
    · exact IH e he
  · intro x xs p i IH e he
    rw [compareJsonElems] at he
    rcases List.mem_cons.mp he with rfl | he
    · exact ⟨rfl, rfl⟩
    · exact IH e he
  · intro x xs y ys p i IH1 IH2 e he
    rw [compareJsonElems] at he
    rcases List.mem_append.mp he with he | he
    · exact IH1 e he
    · exact IH2 e he

/-- Witness for C9 at a concrete input: the Changed entry of the first
example diff carries both values and they are structurally unequal. -/
theorem c9_diff_entry_shape_witness :
    ({ path := "b", type := .changed, oldValue := some (.num 2),
       newValue := some (.num 3) } : DiffResult) ∈
        compareJson (.obj [("a", .num 1), ("b", .num 2)])
          (.obj [("a", .num 1), ("b", .num 3)]) "" ∧
      shapeInvariant { path := "b"
                       type := DiffType.changed
                       oldValue := some (.num 2)
                       newValue := some (.num 3) } := by
  have heval : compareJson (.obj [("a", .num 1), ("b", .num 2)])
      (.obj [("a", .num 1), ("b", .num 3)]) "" =
      [{ path := "b", type := .changed, oldValue := some (.num 2),
         newValue := some (.num 3) }] := by
    simp [compareJson, compareJsonKeys, jsEq, jsTypeof, isNull, jsKeys, jsEntries,
      getKey, getKeyL, firstDedup, keyPath, rootPath]
  have hmem : ({ path := "b", type := .changed, oldValue := some (.num 2),
                 newValue := some (.num 3) } : DiffResult) ∈
        compareJson (.obj [("a", .num 1), ("b", .num 2)])
          (.obj [("a", .num 1), ("b", .num 3)]) "" := by
    rw [heval]
    exact List.mem_singleton.mpr rfl
  exact ⟨hmem, c9_diff_entry_shape _ _ _ _ hmem⟩

theorem compareJson_object_branch : ∀ {a b : Json} (p : String),
    (∀ xs ys, a = Json.arr xs → b = Json.arr ys → False) →
    (jsTypeof a == "object" && jsTypeof b == "object") = true →
    ¬jsEq a b = true → ¬(jsTypeof a != jsTypeof b) = true →
    ¬(isNull a || isNull b) = true →
    compareJson a b p = compareJsonKeys a b p (firstDedup (jsKeys a ++ jsKeys b)) := by
  intro a b p harr hobj hjs hne hnull
  rw [compareJson.eq_def, if_neg hjs, if_neg hne, if_neg hnull]
  cases a <;> cases b <;> first
    | (simp [jsTypeof] at hobj <;> exact hobj.elim)
    | (simp [isNull] at hnull <;> exact hnull.elim)
    | (exact (harr _ _ rfl rfl).elim)
    | (exact if_pos hobj)

theorem mem_firstDedup_append_comm {k : String} {l1 l2 : List String}
    (h : k ∈ firstDedup (l1 ++ l2)) : k ∈ firstDedup (l2 ++ l1) := by
  rw [mem_firstDedup, List.mem_append] at h ⊢
  exact h.symm

/-- C6: the differ is mirror-symmetric: every entry of diff(a, b) appears
mirrored in diff(b, a) at the same path, Added and Removed trading places
with the value moved between the fields and Changed swapping its values. -/
theorem c6_diff_mirror_symmetry : ∀ (a b : Json) (p : String),
    ∀ e ∈ compareJson a b p, mirrorEntry e ∈ compareJson b a p := by
  refine compareJson.induct
    (fun a b p => ∀ e ∈ compareJson a b p, mirrorEntry e ∈ compareJson b a p)
    (fun a b p ks =>
      (∀ k ∈ ks, (getKey a k).isSome = true ∨ (getKey b k).isSome = true) →
        ∀ e ∈ compareJsonKeys a b p ks, ∃ k ∈ ks, mirrorEntry e ∈ keyDiff b a p k)
    (fun xs ys p i => ∀ e ∈ compareJsonElems xs ys p i,
      mirrorEntry e ∈ compareJsonElems ys xs p i)
    ?_ ?_ ?_ ?_ ?_ ?_ ?_ ?_ ?_ ?_ ?_ ?_ ?_ ?_
  · intro a b p hjs e he
    rw [compareJson.eq_def, if_pos hjs] at he
    simp at he
  · intro a b p hjs hne e he
    have hjs2 : ¬jsEq b a = true := by
      rw [jsEq_symm b a]
      exact hjs
    have hne2 : (jsTypeof b != jsTypeof a) = true := by
      rw [bne_iff_ne] at hne ⊢
      exact fun hx => hne hx.symm
    rw [compareJson.eq_def, if_neg hjs, if_pos hne] at he
    rcases List.mem_singleton.mp he with rfl
    rw [compareJson.eq_def, if_neg hjs2, if_pos hne2]
    exact List.mem_singleton.mpr rfl
  · intro a b p hjs hne hnull h3 e he
    have hjs2 : ¬jsEq b a = true := by
      rw [jsEq_symm b a]
      exact hjs
    have hne2 : ¬(jsTypeof b != jsTypeof a) = true := by
      have hteq : jsTypeof a = jsTypeof b := by
        have h := hne
        rwa [bne_iff_ne, not_not] at h
      rw [bne_iff_ne]
      exact fun hx => hx hteq.symm
    have hnull2 : (isNull b || isNull a) = true := by
      rw [Bool.or_comm]
      exact hnull
    have h32 : (!jsEq b a) = true := by
      rw [jsEq_symm b a]
      exact h3
    rw [compareJson.eq_def, if_neg hjs, if_neg hne, if_pos hnull, if_pos h3] at he
    rcases List.mem_singleton.mp he with rfl
    rw [compareJson.eq_def, if_neg hjs2, if_neg hne2, if_pos hnull2, if_pos h32]
    exact List.mem_singleton.mpr rfl
  · intro a b p hjs hne hnull h4 e he
    rw [compareJson.eq_def, if_neg hjs, if_neg hne, if_pos hnull, if_neg h4] at he
    simp at he
  · intro p xs ys hjs hne hnull IH e he
    have hjs2 : ¬jsEq (Json.arr ys) (Json.arr xs) = true := by
      rw [jsEq_symm]
      exact hjs
    have hne2 : ¬(jsTypeof (Json.arr ys) != jsTypeof (Json.arr xs)) = true := by
      simp [jsTypeof]
    have hnull2 : ¬(isNull (Json.arr ys) || isNull (Json.arr xs)) = true := by
      simp [isNull]
    rw [compareJson.eq_def, if_neg hjs, if_neg hne, if_neg hnull] at he
    have heq : compareJson (Json.arr ys) (Json.arr xs) p =
        compareJsonElems ys xs p 0 := by
      rw [compareJson.eq_def, if_neg hjs2, if_neg hne2, if_neg hnull2]
    rw [heq]
    exact IH e he
  · intro p a b harr hobj hjs hne hnull IH
    have hpre : ∀ k ∈ firstDedup (jsKeys a ++ jsKeys b),
        (getKey a k).isSome = true ∨ (getKey b k).isSome = true := by
      intro k hk
      rw [mem_firstDedup, List.mem_append] at hk
      rcases hk with hk | hk
      · exact .inl (getKey_isSome_of_mem_jsKeys hk)
      · exact .inr (getKey_isSome_of_mem_jsKeys hk)
    have hjs2 : ¬jsEq b a = true := by
      rw [jsEq_symm b a]
      exact hjs
    have hne2 : ¬(jsTypeof b != jsTypeof a) = true := by
      have hteq : jsTypeof a = jsTypeof b := by
        have h := hne
        rwa [bne_iff_ne, not_not] at h
      rw [bne_iff_ne]
      exact fun hx => hx hteq.symm
    have hnull2 : ¬(isNull b || isNull a) = true := by
      rw [Bool.or_comm]
      exact hnull
    have hobj2 : (jsTypeof b == "object" && jsTypeof a == "object") = true := by
      rw [Bool.and_comm]
      exact hobj
    have harr2 : ∀ xs ys, b = Json.arr xs → a = Json.arr ys → False :=
      fun xs ys hb ha => harr ys xs ha hb
    intro e he
    rw [compareJson_object_branch p harr hobj hjs hne hnull] at he
    obtain ⟨k, hk, hmk⟩ := IH hpre e he
    rw [compareJson_object_branch p harr2 hobj2 hjs2 hne2 hnull2]
    exact mem_compareJsonKeys.mpr ⟨k, mem_firstDedup_append_comm hk, hmk⟩
  · intro p a b harr hobj h7 hjs hne hnull
    have hteq : jsTypeof a = jsTypeof b := by
      have h := hne
      rwa [bne_iff_ne, not_not] at h
    have hjs2 : ¬jsEq b a = true := by
      rw [jsEq_symm b a]
      exact hjs
    have hne2 : ¬(jsTypeof b != jsTypeof a) = true := by
      rw [bne_iff_ne]
      exact fun hx => hx hteq.symm
    have hnull2 : ¬(isNull b || isNull a) = true := by
      rw [Bool.or_comm]
      exact hnull
    have hobj2 : ¬(jsTypeof b == "object" && jsTypeof a == "object") = true := by
      rw [Bool.and_comm]
      exact hobj
    have h72 : (!jsEq b a) = true := by
      rw [jsEq_symm b a]
      exact h7
    have heqf : compareJson a b p =
        [{ path := rootPath p, type := .changed, oldValue := some a,
           newValue := some b }] := by
      rw [compareJson.eq_def, if_neg hjs, if_neg hne, if_neg hnull]
      cases a <;> cases b <;> first
        | (exact (harr _ _ rfl rfl).elim)
        | (exact absurd rfl hobj)
        | (exact (if_neg hobj).trans (if_pos h7))
    have heqb : compareJson b a p =
        [{ path := rootPath p, type := .changed, oldValue := some b,
           newValue := some a }] := by
      rw [compareJson.eq_def, if_neg hjs2, if_neg hne2, if_neg hnull2]
      cases a <;> cases b <;> first
        | (exact (harr _ _ rfl rfl).elim)
        | (exact absurd rfl hobj)
        | (exact (if_neg hobj2).trans (if_pos h72))
    intro e he
    rw [heqf] at he
    rcases List.mem_singleton.mp he with rfl
    rw [heqb]
    exact List.mem_singleton.mpr rfl
  · intro p a b harr hobj h8 hjs hne hnull
    have hj : jsEq a b = true := by
      cases hj : jsEq a b
      · exact absurd (by rw [hj]; rfl) h8
      · rfl
    exact absurd hj hjs
  · intro a b p _ e he
    rw [compareJsonKeys] at he
    simp at he
  · intro a b p k ks IH1 IH2 hpre e he
    rw [compareJsonKeys_cons] at he
    rcases List.mem_append.mp he with he | he
    · rw [keyDiff] at he
      cases hga : getKey a k <;> cases hgb : getKey b k <;>
        simp only [hga, hgb] at he
      · rcases hpre k (List.mem_cons_self _ _) with h | h
        · rw [hga] at h
          simp at h
        · rw [hgb] at h
          simp at h
      · next v2 =>
        rcases List.mem_singleton.mp he with rfl
        refine ⟨k, List.mem_cons_self _ _, ?_⟩
        simp only [keyDiff, hga, hgb]
        exact List.mem_singleton.mpr rfl
      · next v1 =>
        rcases List.mem_singleton.mp he with rfl
        refine ⟨k, List.mem_cons_self _ _, ?_⟩
        simp only [keyDiff, hga, hgb]
        exact List.mem_singleton.mpr rfl
      · next v1 v2 =>
        refine ⟨k, List.mem_cons_self _ _, ?_⟩
        simp only [keyDiff, hga, hgb]
        exact IH1 _ _ hga hgb e he
    · obtain ⟨k2, hk2, hm2⟩ :=
        IH2 (fun x hx => hpre x (List.mem_cons_of_mem _ hx)) e he
      exact ⟨k2, List.mem_cons_of_mem _ hk2, hm2⟩
  · intro p i e he
    rw [compareJsonElems] at he
    simp at he
  · intro y ys p i IH e he
    rw [compareJsonElems] at he
    rw [compareJsonElems]
    rcases List.mem_cons.mp he with rfl | he
    · exact List.mem_cons_self _ _
    · exact List.mem_cons_of_mem _ (IH e he)
  · intro x xs p i IH e he
    rw [compareJsonElems] at he
    rw [compareJsonElems]
    rcases List.mem_cons.mp he with rfl | he
    · exact List.mem_cons_self _ _
    · exact List.mem_cons_of_mem _ (IH e he)
  · intro x xs y ys p i IH1 IH2 e he
    rw [compareJsonElems] at he
    rw [compareJsonElems]
    rcases List.mem_append.mp he with he | he
    · exact List.mem_append.mpr (.inl (IH1 e he))
    · exact List.mem_append.mpr (.inr (IH2 e he))

/-- Witness for C6 at a concrete input: the Removed entry for key x mirrors
to an Added entry for key x in the reversed diff. -/
theorem c6_diff_mirror_symmetry_witness :
    ({ path := "x", type := .removed, oldValue := some (.num 1),
       newValue := none } : DiffResult) ∈
        compareJson (.obj [("x", .num 1)]) (.obj []) "" ∧
      mirrorEntry { path := "x"
                    type := DiffType.removed
                    oldValue := some (.num 1)
                    newValue := none } ∈
        compareJson (.obj []) (.obj [("x", .num 1)]) "" := by
  have heval : compareJson (.obj [("x", .num 1)]) (.obj []) "" =
      [{ path := "x", type := .removed, oldValue := some (.num 1),
         newValue := none }] := by
    simp [compareJson, compareJsonKeys, jsEq, jsTypeof, isNull, jsKeys, jsEntries,
      getKey, getKeyL, firstDedup, keyPath, rootPath]
  have hmem : ({ path := "x", type := .removed, oldValue := some (.num 1),
                 newValue := none } : DiffResult) ∈
      compareJson (.obj [("x", .num 1)]) (.obj []) "" := by
    rw [heval]
    exact List.mem_singleton.mpr rfl
  exact ⟨hmem, c6_diff_mirror_symmetry _ _ _ _ hmem⟩

theorem applyOps_error : ∀ (ops : List PatchOp) (doc : Json) (i : Nat)
    (e : PatchError), applyOps doc ops i = .error e →
    i ≤ e.opIndex ∧ e.opIndex - i < ops.length ∧
    ∃ doc2, applyOps doc (ops.take (e.opIndex - i)) i = .ok doc2 ∧
      applyOp doc2 (ops.getD (e.opIndex - i) (.remove [])) = .error e.kind := by
  intro ops
  induction ops with
  | nil =>
    intro doc i e h
    rw [applyOps] at h
    cases h
  | cons op rest ih =>
    intro doc i e h
    rw [applyOps] at h
    cases happ : applyOp doc op with
    | error k =>
      rw [happ] at h
      cases h
      refine ⟨Nat.le_refl _, by simp, doc, ?_, ?_⟩
      · simp only [Nat.sub_self, List.take_zero]
        rw [applyOps]
      · simpa [Nat.sub_self] using happ
    | ok doc2 =>
      rw [happ] at h
      obtain ⟨hle, hlt, d3, hok, herr⟩ := ih doc2 (i + 1) e h
      have hge : i + 1 ≤ e.opIndex := hle
      have hsub : e.opIndex - i = (e.opIndex - (i + 1)) + 1 := by omega
      refine ⟨by omega, by simp; omega, d3, ?_, ?_⟩
      · rw [hsub, List.take_succ_cons, applyOps, happ]
        exact hok
      · rw [hsub, List.getD_cons_succ]
        exact herr

/-- C1, modelled from the spec because the RFC 6902 applier is the external
fast-json-patch package: applyPatch is atomic; whenever it reports an
error, all operations before the reported index succeeded on the working
copy, the operation at the reported index is the one that failed with the
reported kind, and no document is returned, so the caller keeps the
original unmodified document; in particular the test-then-replace example
fails with TestFailed at operation index 0. -/
theorem c1_apply_patch_atomic :
    (∀ (doc : Json) (ops : List PatchOp) (e : PatchError),
        applyPatch doc ops = .error e →
          e.opIndex < ops.length ∧
          ∃ doc2, applyPatch doc (ops.take e.opIndex) = .ok doc2 ∧
            applyOp doc2 (ops.getD e.opIndex (.remove [])) = .error e.kind) ∧
      applyPatch (Json.obj [("a", Json.num 1)])
          [PatchOp.test [.key "a"] (.num 2), PatchOp.replace [.key "a"] (.num 5)] =
        .error ⟨0, .testFailed⟩ := by
  constructor
  · intro doc ops e h
    obtain ⟨_, hlt, doc2, hok, herr⟩ := applyOps_error ops doc 0 e h
    rw [Nat.sub_zero] at hlt hok herr
    exact ⟨hlt, doc2, hok, herr⟩
  · have hs : structEq (Json.num 1) (Json.num 2) = false := by
      rw [structEq]
      decide
    simp [applyPatch, applyOps, applyOp, getAt, getKeyL, hs, Except.bind, bind]

/-- Witness for C1 at the concrete failing example: every hypothesis of the
atomicity statement is discharged by the evaluated example itself. -/
theorem c1_apply_patch_atomic_witness :
    (0 : Nat) < 2 ∧
      ∃ doc2, applyPatch (Json.obj [("a", Json.num 1)])
          (List.take 0 [PatchOp.test [.key "a"] (.num 2),
            PatchOp.replace [.key "a"] (.num 5)]) = .ok doc2 ∧
        applyOp doc2 (List.getD [PatchOp.test [.key "a"] (.num 2),
            PatchOp.replace [.key "a"] (.num 5)] 0 (.remove [])) =
          .error PErrKind.testFailed :=
  c1_apply_patch_atomic.1 _ _ _ c1_apply_patch_atomic.2
